import Mathlib

/-!
Verification of the newspapers_crawler repository.

Shallow embedding of the crawler scripts:
- src/dantri/get_comments.py   (comment flattener, reply fetch, exit codes)
- src/dantri/get_news.py       (redirect-derived pagination, dedup, csv writer)
- src/tto/get_news.py          (content-derived pagination, csv writer, exit codes)
- src/vnexpress/get_all_comments.py (comment flattener, reply fetch, exit)
- src/vnexpress/clean_old_csv.py    (column removal utility)

HTTP fetches are modelled as oracle functions supplied as parameters; the
Python code of each function is translated branch by branch.
-/

/-! ## Generic list helpers -/

/-- Folding a block-appending step starting from an accumulator produces the
accumulator followed by the concatenation of the blocks. -/
theorem foldl_append_blocks {α β : Type} (f : α → List β) :
    ∀ (l : List α) (init : List β),
      l.foldl (fun res a => res ++ f a) init = init ++ (l.map f).flatten := by
  intro l
  induction l with
  | nil => intro init; simp
  | cons a l ih =>
    intro init
    simp only [List.foldl_cons, List.map_cons, List.flatten]
    rw [ih]
    simp [List.append_assoc]

/-- One iteration of a loop that appends a converted record on success
and skips it on failure. -/
def skipStep {α β : Type} (f : α → Option β) (acc : List β) (a : α) :
    List β :=
  match f a with
  | some b => acc ++ [b]
  | none => acc

/-- Folding a skip-on-failure step starting from an accumulator produces the
accumulator followed by the successfully converted records. -/
theorem foldl_skip_eq_filterMap {α β : Type} (f : α → Option β) :
    ∀ (l : List α) (init : List β),
      l.foldl (skipStep f) init = init ++ l.filterMap f := by
  intro l
  induction l with
  | nil => intro init; simp
  | cons a l ih =>
    intro init
    simp only [List.foldl_cons]
    cases h : f a with
    | none => rw [ih]; simp [skipStep, List.filterMap_cons, h]
    | some b => rw [ih]; simp [skipStep, List.filterMap_cons, h]

/-! ## Dantri comment flattener (src/dantri/get_comments.py) -/

/-- One item of the dantri listcomment payload.  `reactionsTotal` models
`comment.get('reactions', \x7b\x7d)` followed by `.get('total', 0)`: `none`
covers a missing or empty reactions dict, `some t` a dict carrying total `t`. -/
structure DComment where
  commentId : Option String
  parentId : Option String
  commentContent : String
  reactionsTotal : Option Nat
  replyCount : Nat
deriving DecidableEq

/-- A flat output row of the dantri comment crawler.  `none` in an Option
field models Python `None`. -/
structure CommentRow where
  article_id : String
  comment_id : Option String
  parent_id : Option String
  is_reply : Bool
  content : String
  likes : Nat
deriving DecidableEq

/-- Row emitted for a top-level dantri comment (get_comments.py lines 75-82).
`parent_id` is `parent_id if parent_id else ''` and `is_reply` is
`False if parent_id is None else True`. -/
def dantriTopRow (aid : String) (c : DComment) : CommentRow :=
  { article_id := aid
    comment_id := c.commentId
    parent_id := some (c.parentId.getD "")
    is_reply := c.parentId.isSome
    content := c.commentContent
    likes := c.reactionsTotal.getD 0 }

/-- Row emitted for a dantri reply (get_comments.py lines 99-106); the
`parent_id` field is set to the commentId of the owning top-level comment. -/
def dantriReplyRow (aid : String) (parent : Option String) (r : DComment) :
    CommentRow :=
  { article_id := aid
    comment_id := r.commentId
    parent_id := parent
    is_reply := true
    content := r.commentContent
    likes := r.reactionsTotal.getD 0 }

/-- process_comments (get_comments.py lines 52-108).  `env` is the reply
fetch oracle: `env cid` is the list returned by get_comment_replies for
comment id `cid`; the fetch is issued only when the declared replyCount is
positive. -/
def process_comments (env : Option String → List DComment) (aid : String)
    (comments : List DComment) : List CommentRow :=
  comments.foldl (fun res c =>
    let res2 := res ++ [dantriTopRow aid c]
    if 0 < c.replyCount then
      res2 ++ (env c.commentId).map (dantriReplyRow aid c.commentId)
    else res2) []

/-- Rows process_comments emits for one top-level comment: the top row
followed by one row per fetched reply. -/
def dantriBlock (env : Option String → List DComment) (aid : String)
    (c : DComment) : List CommentRow :=
  dantriTopRow aid c ::
    (if 0 < c.replyCount then
      (env c.commentId).map (dantriReplyRow aid c.commentId)
    else [])

/-- process_comments decomposes into per-comment blocks in input order. -/
theorem process_comments_eq_blocks (env : Option String → List DComment)
    (aid : String) (comments : List DComment) :
    process_comments env aid comments
      = (comments.map (dantriBlock env aid)).flatten := by
  have h : ∀ (l : List DComment) (init : List CommentRow),
      l.foldl (fun res c =>
        let res2 := res ++ [dantriTopRow aid c]
        if 0 < c.replyCount then
          res2 ++ (env c.commentId).map (dantriReplyRow aid c.commentId)
        else res2) init = init ++ (l.map (dantriBlock env aid)).flatten := by
    intro l
    induction l with
    | nil => intro init; simp
    | cons c l ih =>
      intro init
      simp only [List.foldl_cons, List.map_cons, List.flatten]
      rw [ih]
      by_cases hc : 0 < c.replyCount <;>
        simp [dantriBlock, hc, List.append_assoc]
  simpa [process_comments] using h comments []

/-! ## VnExpress comment flattener (src/vnexpress/get_all_comments.py) -/

/-- One item of the vnexpress comment payload.  An empty `comment_id`
models a missing or empty id (Python falsy); `replysTotal` is
`comment['replys']['total']` when both nested keys exist; `is_reply` is
the flag the crawler adds to reply items (absent, hence false, on items
as returned by the API). -/
structure VComment where
  comment_id : String
  parent_id : Option String
  content : String
  replysTotal : Option Nat
  userlike : Nat
  is_reply : Bool
deriving DecidableEq

/-- Query parameter limit=12 fixed in the reply request URL
(get_all_comments.py lines 43-47). -/
def replyLimit : Nat := 12

/-- Query parameter offset=0 fixed in the reply request URL. -/
def replyOffset : Nat := 0

/-- fetch_comment_replies (get_all_comments.py lines 32-63).  `renv pid`
is the full reply list the upstream service holds for comment `pid`; the
endpoint is modelled as returning the `limit` replies starting at
`offset`, per the query parameters fixed in the URL.  A fetch or shape
error corresponds to `renv pid = []`. -/
def fetch_comment_replies (renv : String → List VComment)
    (aid pid : String) : List VComment :=
  let _ := aid
  ((renv pid).drop replyOffset).take replyLimit

/-- The guard of lines 102-108: the declared reply total is positive and
the comment id is truthy. -/
def vGuard (c : VComment) : Bool :=
  (match c.replysTotal with
    | some t => decide (0 < t)
    | none => false) && !(c.comment_id == "")

/-- A top-level comment as appended, with its content cleaned
(get_all_comments.py lines 94-99).  `clean` stands for
clean_html_content. -/
def vCleanTop (clean : String → String) (c : VComment) : VComment :=
  { c with content := clean c.content }

/-- A reply as appended: content cleaned and is_reply set to True
(lines 115-119). -/
def vMarkReply (clean : String → String) (r : VComment) : VComment :=
  { r with content := clean r.content, is_reply := true }

/-- The reply rows fetch_article_comments emits under one top-level
comment. -/
def vReplyRows (clean : String → String) (renv : String → List VComment)
    (aid : String) (c : VComment) : List VComment :=
  if vGuard c then
    (fetch_comment_replies renv aid c.comment_id).map (vMarkReply clean)
  else []

/-- fetch_article_comments (get_all_comments.py lines 65-126), applied to
the list of top-level items from the comment payload.  The outer payload
fetch and its data/items checks are not modelled: on their failure the
function returns [] without reaching this loop. -/
def fetch_article_comments (clean : String → String)
    (renv : String → List VComment) (aid : String)
    (comments : List VComment) : List VComment :=
  comments.foldl (fun acc c =>
    let acc2 := acc ++ [vCleanTop clean c]
    if vGuard c then
      acc2 ++ (fetch_comment_replies renv aid c.comment_id).map (vMarkReply clean)
    else acc2) []

/-- The rows fetch_article_comments emits for one top-level comment. -/
def vBlock (clean : String → String) (renv : String → List VComment)
    (aid : String) (c : VComment) : List VComment :=
  vCleanTop clean c :: vReplyRows clean renv aid c

/-- fetch_article_comments decomposes into per-comment blocks in input
order. -/
theorem fetch_article_comments_eq_blocks (clean : String → String)
    (renv : String → List VComment) (aid : String)
    (comments : List VComment) :
    fetch_article_comments clean renv aid comments
      = (comments.map (vBlock clean renv aid)).flatten := by
  have h : ∀ (l : List VComment) (init : List VComment),
      l.foldl (fun acc c =>
        let acc2 := acc ++ [vCleanTop clean c]
        if vGuard c then
          acc2 ++ (fetch_comment_replies renv aid c.comment_id).map (vMarkReply clean)
        else acc2) init = init ++ (l.map (vBlock clean renv aid)).flatten := by
    intro l
    induction l with
    | nil => intro init; simp
    | cons c l ih =>
      intro init
      simp only [List.foldl_cons, List.map_cons, List.flatten]
      rw [ih]
      by_cases hc : vGuard c <;>
        simp [vBlock, vReplyRows, hc, List.append_assoc]
  simpa [fetch_article_comments] using h comments []

/-! ## Length and membership lemmas for the flatteners -/

/-- Row count of the dantri flattener, assuming the reply fetch returns
exactly the declared number of replies whenever it is issued. -/
theorem process_comments_length (env : Option String → List DComment)
    (aid : String) :
    ∀ comments : List DComment,
      (∀ c ∈ comments, 0 < c.replyCount →
        (env c.commentId).length = c.replyCount) →
      (process_comments env aid comments).length
        = comments.length + (comments.map (fun c => c.replyCount)).sum := by
  intro comments
  induction comments with
  | nil => intro _; simp [process_comments]
  | cons c l ih =>
    intro h
    have hc := h c (by simp)
    have hl : ∀ x ∈ l, 0 < x.replyCount →
        (env x.commentId).length = x.replyCount := by
      intro x hx
      exact h x (List.mem_cons_of_mem _ hx)
    rw [process_comments_eq_blocks] at ih ⊢
    simp only [List.map_cons, List.flatten_cons, List.length_append]
    rw [ih hl]
    by_cases hrc : 0 < c.replyCount
    · simp only [dantriBlock, hrc, if_pos, List.length_cons,
        List.length_map, hc hrc]
      simp [Nat.add_comm, Nat.add_assoc, Nat.add_left_comm]
    · have h0 : c.replyCount = 0 := Nat.eq_zero_of_not_pos hrc
      simp [dantriBlock, hrc, h0, Nat.add_comm, Nat.add_assoc,
        Nat.add_left_comm]

/-- Every row of the dantri flattener output is a top-level row of some
input comment, or a reply row fetched under some input comment carrying
that owning commentId in parent_id. -/
theorem process_comments_mem (env : Option String → List DComment)
    (aid : String) (comments : List DComment) (row : CommentRow)
    (hrow : row ∈ process_comments env aid comments) :
    (∃ c ∈ comments, row = dantriTopRow aid c)
    ∨ (∃ c ∈ comments, ∃ r ∈ env c.commentId,
        row = dantriReplyRow aid c.commentId r
        ∧ row.parent_id = c.commentId) := by
  rw [process_comments_eq_blocks] at hrow
  rcases List.mem_flatten.mp hrow with ⟨blk, hblk, hrowblk⟩
  rcases List.mem_map.mp hblk with ⟨c, hc, rfl⟩
  rcases List.mem_cons.mp hrowblk with hTop | hRest
  · exact Or.inl ⟨c, hc, hTop⟩
  · by_cases hrc : 0 < c.replyCount
    · simp only [dantriBlock, hrc, if_pos] at hRest
      rcases List.mem_map.mp hRest with ⟨r, hr, rfl⟩
      exact Or.inr ⟨c, hc, r, hr, rfl, rfl⟩
    · simp [dantriBlock, hrc] at hRest

/-- Row count of the vnexpress flattener: one row per top-level comment
plus the fetched replies of every comment passing the reply guard. -/
theorem fetch_article_comments_length (clean : String → String)
    (renv : String → List VComment) (aid : String) :
    ∀ comments : List VComment,
      (∀ c ∈ comments, vGuard c = true →
        (fetch_comment_replies renv aid c.comment_id).length
          = c.replysTotal.getD 0) →
      (fetch_article_comments clean renv aid comments).length
        = comments.length
          + ((comments.filter vGuard).map (fun c => c.replysTotal.getD 0)).sum := by
  intro comments
  induction comments with
  | nil => intro _; simp [fetch_article_comments]
  | cons c l ih =>
    intro h
    have hc := h c (by simp)
    have hl : ∀ x ∈ l, vGuard x = true →
        (fetch_comment_replies renv aid x.comment_id).length
          = x.replysTotal.getD 0 := by
      intro x hx
      exact h x (List.mem_cons_of_mem _ hx)
    rw [fetch_article_comments_eq_blocks] at ih ⊢
    simp only [List.map_cons, List.flatten_cons, List.length_append]
    rw [ih hl]
    by_cases hg : vGuard c
    · simp only [vBlock, vReplyRows, hg, if_pos, List.length_cons,
        List.length_map, List.filter_cons_of_pos, hc hg]
      simp [Nat.add_comm, Nat.add_assoc, Nat.add_left_comm]
    · simp only [Bool.not_eq_true] at hg
      simp [vBlock, vReplyRows, hg, List.filter_cons_of_neg,
        Nat.add_comm, Nat.add_assoc, Nat.add_left_comm]

/-! ## Claims C1 and C4 -/

/-- Claim C1 (amended).  Dantri: when the reply fetch returns exactly the
declared number of replies for each comment it is issued for, the
flattener emits exactly N plus the sum of the declared reply counts rows,
and every reply row carries the owning commentId in parent_id.
VnExpress: under the same fetch assumption the flattener emits N plus the
sum of the declared totals of the comments passing the reply guard
(positive declared total AND truthy comment_id); reply rows keep the
parent_id of the reply payload, which the code does not force to the
owning id. -/
theorem claim1_flattener_rows :
    (∀ (env : Option String → List DComment) (aid : String)
        (comments : List DComment),
      (∀ c ∈ comments, 0 < c.replyCount →
        (env c.commentId).length = c.replyCount) →
      (process_comments env aid comments).length
          = comments.length + (comments.map (fun c => c.replyCount)).sum
      ∧ ∀ row ∈ process_comments env aid comments,
          (∃ c ∈ comments, row = dantriTopRow aid c)
          ∨ (∃ c ∈ comments, ∃ r ∈ env c.commentId,
              row = dantriReplyRow aid c.commentId r
              ∧ row.parent_id = c.commentId))
    ∧ (∀ (clean : String → String) (renv : String → List VComment)
        (aid : String) (comments : List VComment),
      (∀ c ∈ comments, vGuard c = true →
        (fetch_comment_replies renv aid c.comment_id).length
          = c.replysTotal.getD 0) →
      (fetch_article_comments clean renv aid comments).length
        = comments.length
          + ((comments.filter vGuard).map (fun c => c.replysTotal.getD 0)).sum) := by
  refine ⟨fun env aid comments h => ⟨?_, ?_⟩, ?_⟩
  · exact process_comments_length env aid comments h
  · intro row hrow
    exact process_comments_mem env aid comments row hrow
  · intro clean renv aid comments h
    exact fetch_article_comments_length clean renv aid comments h

/-- Concrete comment with a nonempty id, declared total 1, whose fetched
reply carries a foreign parent_id. -/
def vcA : VComment :=
  { comment_id := "c1", parent_id := none, content := "", replysTotal := some 1,
    userlike := 0, is_reply := false }

/-- Concrete reply whose payload parent_id is "zzz", not its owner. -/
def vrZ : VComment :=
  { comment_id := "r1", parent_id := some "zzz", content := "",
    replysTotal := none, userlike := 0, is_reply := false }

/-- Concrete comment with empty (falsy) comment_id but declared total 1. -/
def vcB : VComment :=
  { comment_id := "", parent_id := none, content := "", replysTotal := some 1,
    userlike := 0, is_reply := false }

/-- Reply fetch oracle for the C1 counterexample. -/
def vEnvX : String → List VComment := fun s =>
  if s = "c1" then [vrZ] else if s = "" then [vrZ] else []

/-- Claim C1 as stated is false on the vnexpress flattener: with two
top-level comments, each declaring one reply, and the reply fetch
returning exactly one reply for each comment id, the output has 3 rows,
not N plus the sum of declared totals = 4 (the empty comment_id skips the
fetch), and the single reply row carries parent_id "zzz" from the reply
payload, not the owning comment id "c1". -/
theorem claim1_counterexample :
    (fetch_comment_replies vEnvX "a" "c1").length = 1
    ∧ (fetch_comment_replies vEnvX "a" "").length = 1
    ∧ fetch_article_comments (fun s => s) vEnvX "a" [vcA, vcB]
        = [vcA, vMarkReply (fun s => s) vrZ, vcB]
    ∧ (fetch_article_comments (fun s => s) vEnvX "a" [vcA, vcB]).length = 3
    ∧ ([vcA, vcB] : List VComment).length
        + ([vcA, vcB].map (fun c => c.replysTotal.getD 0)).sum = 4
    ∧ (vMarkReply (fun s => s) vrZ).is_reply = true
    ∧ ¬ (vMarkReply (fun s => s) vrZ).parent_id = some vcA.comment_id := by
  refine ⟨rfl, rfl, ?_, ?_, rfl, rfl, by decide⟩
  · rfl
  · rfl

/-- Concrete dantri comment declaring one reply. -/
def dcW : DComment :=
  { commentId := some "c1", parentId := none, commentContent := "x",
    reactionsTotal := none, replyCount := 1 }

/-- Concrete dantri reply. -/
def drW : DComment :=
  { commentId := some "r1", parentId := some "c1", commentContent := "y",
    reactionsTotal := none, replyCount := 0 }

/-- Reply fetch oracle for the C1 witness. -/
def dEnvW : Option String → List DComment := fun i =>
  if i = some "c1" then [drW] else []

/-- Concrete vnexpress comment declaring one reply, for the C1 witness. -/
def vcW : VComment :=
  { comment_id := "v1", parent_id := none, content := "z",
    replysTotal := some 1, userlike := 0, is_reply := false }

/-- Concrete vnexpress reply for the C1 witness. -/
def vrW : VComment :=
  { comment_id := "vr", parent_id := some "v1", content := "w",
    replysTotal := none, userlike := 0, is_reply := false }

/-- Reply fetch oracle for the C1 witness. -/
def vEnvW : String → List VComment := fun s =>
  if s = "v1" then [vrW] else []

/-- Witness for claim C1 at a concrete input with one comment and one
reply on each site. -/
theorem claim1_witness :
    (process_comments dEnvW "a" [dcW]).length = 2
    ∧ (fetch_article_comments (fun s => s) vEnvW "a" [vcW]).length = 2 := by
  have h1 := (claim1_flattener_rows.1 dEnvW "a" [dcW] (by decide)).1
  have h2 := claim1_flattener_rows.2 (fun s => s) vEnvW "a" [vcW] (by decide)
  constructor
  · rw [h1]; decide
  · rw [h2]; decide

/-- Claim C4: the flattened output of one run is the concatenation, in
input order, of per-comment blocks: each top-level comment row followed
immediately by all of its reply rows in fetched order, then the next
top-level comment row. -/
theorem claim4_block_order :
    (∀ (env : Option String → List DComment) (aid : String)
        (comments : List DComment),
      process_comments env aid comments
        = (comments.map (dantriBlock env aid)).flatten)
    ∧ (∀ (clean : String → String) (renv : String → List VComment)
        (aid : String) (comments : List VComment),
      fetch_article_comments clean renv aid comments
        = (comments.map (vBlock clean renv aid)).flatten) :=
  ⟨process_comments_eq_blocks, fetch_article_comments_eq_blocks⟩

/-! ## Dantri article search and pagination (src/dantri/get_news.py) -/

/-- An article record extracted from a dantri search result page. -/
structure DArticle where
  article_id : String
  url : String
  title : String
  description : String
deriving DecidableEq

/-- Outcome of one page request of search_dantri: an exception, or a
response whose final URL echoes an optional page number (the pi query
parameter of the possibly redirected URL) and whose HTML parses to a list
of article records. -/
inductive DantriFetch where
  | err : DantriFetch
  | ok : Option Nat → List DArticle → DantriFetch
deriving DecidableEq

/-- search_dantri (get_news.py lines 11-44) composed with
extract_articles: returns the parsed content (none on error) and the
is_last_page flag, true exactly when the echoed page number exists and is
less than the requested page (on error the code assumes the last page). -/
def search_dantri (env : Nat → DantriFetch) (page : Nat) :
    Option (List DArticle) × Bool :=
  match env page with
  | .err => (none, true)
  | .ok echo arts =>
    (some arts,
      match echo with
      | some q => decide (q < page)
      | none => false)

/-- The per-query search loop of main (get_news.py lines 148-171),
fuel-bounded: fetch a page, accumulate its parsed records if the fetch
succeeded, stop when is_last_page was signalled, else continue with the
next page.  Returns the accumulated records and the last requested page,
or none if the fuel ran out before the loop stopped. -/
def dantriRun (env : Nat → DantriFetch) :
    Nat → Nat → List DArticle → Option (List DArticle × Nat)
  | 0, _, _ => none
  | fuel + 1, page, acc =>
    let r := search_dantri env page
    let acc2 := match r.1 with
      | some arts => acc ++ arts
      | none => acc
    if r.2 then some (acc2, page) else dantriRun env fuel (page + 1) acc2

/-- Records parsed from pages first, first+1, ..., last (empty for error
pages). -/
def dantriPagesFrom (env : Nat → DantriFetch) (first last : Nat) :
    List DArticle :=
  ((List.range (last + 1 - first)).map (fun i =>
    match env (first + i) with
    | .ok _ arts => arts
    | .err => [])).flatten

/-- Generalized loop lemma: starting at page p with pages p..P-1 fetching
fine and not echoing a smaller page, and page P echoing a smaller page,
the loop stops at P having appended the content of pages p through P,
page P included. -/
theorem dantriRun_spec (env : Nat → DantriFetch) (P : Nat)
    (hlast : ∃ m arts, env P = .ok (some m) arts ∧ m < P) :
    ∀ (fuel p : Nat) (acc : List DArticle), p ≤ P → P + 1 - p ≤ fuel →
      (∀ q, p ≤ q → q < P → ∃ echo arts, env q = .ok echo arts ∧
        (match echo with
          | some m => ¬ m < q
          | none => True)) →
      dantriRun env fuel p acc = some (acc ++ dantriPagesFrom env p P, P) := by
  intro fuel
  induction fuel with
  | zero =>
    intro p acc hpP hfuel _
    omega
  | succ fuel ih =>
    intro p acc hpP hfuel hok
    by_cases hpeq : p = P
    · subst hpeq
      rcases hlast with ⟨m, arts, henv, hm⟩
      have hrange : p + 1 - p = 1 := by omega
      have hpage : dantriPagesFrom env p p = arts := by
        simp [dantriPagesFrom, hrange, List.range_succ, henv]
      rw [hpage]
      simp [dantriRun, search_dantri, henv, hm]
    · have hpP2 : p < P := lt_of_le_of_ne hpP hpeq
      rcases hok p (le_refl p) hpP2 with ⟨echo, arts, henv, hecho⟩
      have hstep : dantriRun env (fuel + 1) p acc
          = dantriRun env fuel (p + 1) (acc ++ arts) := by
        cases echo with
        | none => simp [dantriRun, search_dantri, henv]
        | some m =>
          simp only at hecho
          simp [dantriRun, search_dantri, henv, hecho]
      rw [hstep]
      have hrec := ih (p + 1) (acc ++ arts) (by omega) (by omega)
        (fun q hq1 hq2 => hok q (by omega) hq2)
      rw [hrec]
      have hsplit : dantriPagesFrom env p P
          = arts ++ dantriPagesFrom env (p + 1) P := by
        have hn : P + 1 - p = (P + 1 - (p + 1)) + 1 := by omega
        simp only [dantriPagesFrom, hn, List.range_succ_eq_map,
          List.map_cons, List.flatten_cons, List.map_map]
        have h0 : (match env (p + 0) with
            | .ok _ arts => arts
            | .err => []) = arts := by
          simp [henv]
        rw [h0]
        congr 1
        apply congrArg
        apply List.map_congr_left
        intro i _
        simp [Function.comp]
        have : p + (i + 1) = p + 1 + i := by omega
        rw [this]
      rw [hsplit, List.append_assoc]

/-- Claim C2 (amended).  When page P is the first page whose echoed URL
page number is less than the requested page number, the loop stops at
page P (no later page is requested: the result is reached with any fuel
of at least P), the accumulated result contains the records parsed from
pages 1 through P, including the records parsed from the redirected
content of page P, which the code does not discard. -/
theorem claim2_redirect_pagination (env : Nat → DantriFetch) (P : Nat)
    (hP : 0 < P)
    (hok : ∀ q, 0 < q → q < P → ∃ echo arts, env q = .ok echo arts ∧
      (match echo with
        | some m => ¬ m < q
        | none => True))
    (hlast : ∃ m arts, env P = .ok (some m) arts ∧ m < P) :
    ∀ fuel, P ≤ fuel →
      dantriRun env fuel 1 [] = some (dantriPagesFrom env 1 P, P) := by
  intro fuel hfuel
  have h := dantriRun_spec env P hlast fuel 1 [] hP (by omega)
    (fun q hq1 hq2 => hok q hq1 hq2)
  simpa using h

/-- First article of the C2 scenario, found on page 1. -/
def dA1 : DArticle :=
  { article_id := "1", url := "u1", title := "t1", description := "" }

/-- Second article of the C2 scenario, parsed from the redirected content
of page 2. -/
def dA2 : DArticle :=
  { article_id := "2", url := "u2", title := "t2", description := "" }

/-- Page oracle for C2: page 1 echoes page 1 and yields dA1; every later
request redirects back (echoed page number 1) and yields dA2. -/
def dEnvC : Nat → DantriFetch := fun p =>
  if p = 1 then .ok (some 1) [dA1] else .ok (some 1) [dA2]

/-- Claim C2 as stated is false on the code: with page 2 the first page
whose echoed page number (1) is less than the requested page number, the
loop stops at page 2 but the accumulated result contains dA2, a record
parsed from page 2, which the claim says must not be included. -/
theorem claim2_counterexample :
    dantriRun dEnvC 5 1 [] = some ([dA1, dA2], 2)
    ∧ dEnvC 2 = .ok (some 1) [dA2]
    ∧ dA2 ∈ [dA1, dA2]
    ∧ dA2 ∉ dantriPagesFrom dEnvC 1 1 := by
  refine ⟨rfl, rfl, by decide, by decide⟩

/-- Witness for claim C2 at the concrete two-page oracle. -/
theorem claim2_witness :
    dantriRun dEnvC 5 1 [] = some (dantriPagesFrom dEnvC 1 2, 2) := by
  have h := claim2_redirect_pagination dEnvC 2 (by decide)
    (fun q hq1 hq2 => by
      interval_cases q
      exact ⟨some 1, [dA1], rfl, by decide⟩)
    ⟨1, [dA2], rfl, by decide⟩ 5 (by decide)
  exact h

/-! ## TuoiTre article search and pagination (src/tto/get_news.py) -/

/-- An article record parsed from a TuoiTre search page; `date` is the
datetime extracted from the article id (None when invalid), encoded as a
natural number preserving order. -/
structure TtoArticle where
  article_id : String
  url : String
  headline : String
  description : String
  date : Option Nat
deriving DecidableEq

/-- The oldest-date accumulation of search_tuoitre_articles
(get_news.py lines 120-126): the minimum over the parsed dates present
on the page, none when no article has a date. -/
def oldestDate (arts : List TtoArticle) : Option Nat :=
  arts.foldl (fun o a =>
    match a.date with
    | some d =>
      match o with
      | none => some d
      | some m => if d < m then some d else some m
    | none => o) none

/-- The date-range filter of main (get_news.py lines 224-227): the
article has a date and it lies in [s, e]. -/
def ttoInRange (s e : Nat) (a : TtoArticle) : Bool :=
  match a.date with
  | some d => decide (s ≤ d) && decide (d ≤ e)
  | none => false

/-- The crawl loop of main (get_news.py lines 204-244), fuel-bounded.
`env page` is the parsed article list of the search results page (an
error page gives [], as search_tuoitre_articles returns [] on error).
State: current page, consecutive-empty-page counter, accumulated
records.  Returns the accumulated records and the last requested page,
or none if the fuel ran out before a stop condition fired. -/
def ttoRun (env : Nat → List TtoArticle) (M s e : Nat) :
    Nat → Nat → Nat → List TtoArticle → Option (List TtoArticle × Nat)
  | 0, _, _, _ => none
  | fuel + 1, page, cnt, acc =>
    if M ≤ cnt then some (acc, page - 1)
    else if (env page).isEmpty then
      ttoRun env M s e fuel (page + 1) (cnt + 1) acc
    else
      match oldestDate (env page) with
      | some d =>
        if d < s then some (acc ++ (env page).filter (ttoInRange s e), page)
        else ttoRun env M s e fuel (page + 1) 0
          (acc ++ (env page).filter (ttoInRange s e))
      | none => ttoRun env M s e fuel (page + 1) 0
          (acc ++ (env page).filter (ttoInRange s e))

/-- Length of the maximal run of consecutive empty pages ending at page
p; this is the value of the empty_pages_count variable after page p has
been processed. -/
def emptyRun (env : Nat → List TtoArticle) : Nat → Nat
  | 0 => 0
  | p + 1 => if (env (p + 1)).isEmpty then emptyRun env p + 1 else 0

/-- Stop condition (b): the oldest date found on page p precedes the
configured start date (get_news.py line 236). -/
def ttoDateStop (env : Nat → List TtoArticle) (s p : Nat) : Bool :=
  match oldestDate (env p) with
  | some d => decide (d < s)
  | none => false

/-- The loop stops with page p as the last requested page exactly when
the consecutive-empty counter reaches M at p, or the oldest date found
on p precedes the start date. -/
def ttoStopB (env : Nat → List TtoArticle) (M s p : Nat) : Bool :=
  (emptyRun env p == M) || ttoDateStop env s p

/-- In-range records of pages first..last, in page order. -/
def ttoAccFrom (env : Nat → List TtoArticle) (s e first last : Nat) :
    List TtoArticle :=
  ((List.range (last + 1 - first)).map (fun i =>
    (env (first + i)).filter (ttoInRange s e))).flatten

/-- Unfolding the head page of ttoAccFrom. -/
theorem ttoAccFrom_cons (env : Nat → List TtoArticle) (s e first last : Nat)
    (h : first ≤ last) :
    ttoAccFrom env s e first last
      = (env first).filter (ttoInRange s e)
        ++ ttoAccFrom env s e (first + 1) last := by
  have hn : last + 1 - first = (last + 1 - (first + 1)) + 1 := by omega
  simp only [ttoAccFrom, hn, List.range_succ_eq_map, List.map_cons,
    List.flatten_cons, List.map_map]
  congr 2
  apply List.map_congr_left
  intro a _
  simp only [Function.comp_apply]
  congr 2
  omega

/-- ttoAccFrom over an empty page span. -/
theorem ttoAccFrom_empty (env : Nat → List TtoArticle) (s e first last : Nat)
    (h : last < first) : ttoAccFrom env s e first last = [] := by
  have hn : last + 1 - first = 0 := by omega
  simp [ttoAccFrom, hn]

/-- emptyRun at a positive page. -/
theorem emptyRun_pos (env : Nat → List TtoArticle) (p : Nat) (hp : 0 < p) :
    emptyRun env p
      = (if (env p).isEmpty then emptyRun env (p - 1) + 1 else 0) := by
  obtain ⟨k, rfl⟩ := Nat.exists_eq_add_of_lt hp
  simp [emptyRun]

/-- Step equation: the while guard fails once the counter reaches M; the
last requested page was page - 1. -/
theorem ttoRun_succ_guard (env : Nat → List TtoArticle) (M s e fuel p cnt : Nat)
    (acc : List TtoArticle) (hc : M ≤ cnt) :
    ttoRun env M s e (fuel + 1) p cnt acc = some (acc, p - 1) := by
  simp only [ttoRun, if_pos hc]

/-- Step equation: an empty page increments the counter and continues. -/
theorem ttoRun_succ_empty (env : Nat → List TtoArticle) (M s e fuel p cnt : Nat)
    (acc : List TtoArticle) (hc : ¬ M ≤ cnt) (he : (env p).isEmpty) :
    ttoRun env M s e (fuel + 1) p cnt acc
      = ttoRun env M s e fuel (p + 1) (cnt + 1) acc := by
  simp only [ttoRun, if_neg hc, he, if_pos]

/-- Step equation: a page whose oldest date precedes the start date stops
the loop, keeping the in-range records of that page. -/
theorem ttoRun_succ_datestop (env : Nat → List TtoArticle)
    (M s e fuel p cnt d : Nat) (acc : List TtoArticle) (hc : ¬ M ≤ cnt)
    (he : ¬ (env p).isEmpty) (hold : oldestDate (env p) = some d)
    (hd : d < s) :
    ttoRun env M s e (fuel + 1) p cnt acc
      = some (acc ++ (env p).filter (ttoInRange s e), p) := by
  simp only [ttoRun, if_neg hc, if_neg he, hold, if_pos hd]

/-- Step equation: a nonempty page whose oldest date does not precede the
start date resets the counter and continues. -/
theorem ttoRun_succ_cont_some (env : Nat → List TtoArticle)
    (M s e fuel p cnt d : Nat) (acc : List TtoArticle) (hc : ¬ M ≤ cnt)
    (he : ¬ (env p).isEmpty) (hold : oldestDate (env p) = some d)
    (hd : ¬ d < s) :
    ttoRun env M s e (fuel + 1) p cnt acc
      = ttoRun env M s e fuel (p + 1) 0
          (acc ++ (env p).filter (ttoInRange s e)) := by
  simp only [ttoRun, if_neg hc, if_neg he, hold, if_neg hd]

/-- Step equation: a nonempty page with no parseable date resets the
counter and continues. -/
theorem ttoRun_succ_cont_none (env : Nat → List TtoArticle)
    (M s e fuel p cnt : Nat) (acc : List TtoArticle) (hc : ¬ M ≤ cnt)
    (he : ¬ (env p).isEmpty) (hold : oldestDate (env p) = none) :
    ttoRun env M s e (fuel + 1) p cnt acc
      = ttoRun env M s e fuel (p + 1) 0
          (acc ++ (env p).filter (ttoInRange s e)) := by
  simp only [ttoRun, if_neg hc, if_neg he, hold]

/-- Generalized loop characterization, stopping case: starting at page p
with the counter holding the length of the empty run ending at p - 1, if
P is the first page at or after p where a stop condition fires, the loop
returns the accumulated records extended by the in-range records of
pages p..P, with P the last requested page. -/
theorem ttoRun_stop_spec (env : Nat → List TtoArticle) (M s e : Nat)
    (hM : 0 < M) :
    ∀ (fuel p cnt : Nat) (acc : List TtoArticle) (P : Nat),
      0 < p → cnt = emptyRun env (p - 1) → cnt < M →
      p ≤ P → ttoStopB env M s P = true →
      (∀ q, p ≤ q → q < P → ttoStopB env M s q = false) →
      P + 2 - p ≤ fuel →
      ttoRun env M s e fuel p cnt acc
        = some (acc ++ ttoAccFrom env s e p P, P) := by
  intro fuel
  induction fuel with
  | zero =>
    intro p cnt acc P hp hcnt hcntM hpP hstop hnostop hfuel
    omega
  | succ fuel ih =>
    intro p cnt acc P hp hcnt hcntM hpP hstop hnostop hfuel
    have hMcnt : ¬ M ≤ cnt := by omega
    by_cases hemp : (env p).isEmpty
    · have harts : env p = [] := List.isEmpty_iff.mp hemp
      have hrun : emptyRun env p = cnt + 1 := by
        rw [emptyRun_pos env p hp, if_pos hemp, ← hcnt]
      have hds : ttoDateStop env s p = false := by
        simp [ttoDateStop, harts, oldestDate]
      rw [ttoRun_succ_empty env M s e fuel p cnt acc hMcnt hemp]
      by_cases hpeq : p = P
      · subst hpeq
        have hM2 : cnt + 1 = M := by
          have h2 := hstop
          simp only [ttoStopB, hds, Bool.or_false, beq_iff_eq] at h2
          omega
        obtain ⟨fuel2, rfl⟩ : ∃ f2, fuel = f2 + 1 :=
          ⟨fuel - 1, by omega⟩
        rw [ttoRun_succ_guard env M s e fuel2 (p + 1) (cnt + 1) acc
          (by omega)]
        have hAcc : ttoAccFrom env s e p p = [] := by
          rw [ttoAccFrom_cons env s e p p (le_refl p), harts,
            ttoAccFrom_empty env s e (p + 1) p (by omega)]
          simp
        rw [hAcc, List.append_nil]
        simp
      · have hplt : p < P := lt_of_le_of_ne hpP hpeq
        have hsf : ttoStopB env M s p = false := hnostop p (le_refl p) hplt
        have hne : cnt + 1 < M := by
          rw [ttoStopB, hds] at hsf
          simp only [Bool.or_false, beq_eq_false_iff_ne, ne_eq] at hsf
          rw [hrun] at hsf
          omega
        rw [ih (p + 1) (cnt + 1) acc P (by omega)
          (by simpa using hrun.symm) hne (by omega) hstop
          (fun q h1 h2 => hnostop q (by omega) h2) (by omega)]
        rw [ttoAccFrom_cons env s e p P (le_of_lt hplt), harts]
        simp
    · have hrun0 : emptyRun env p = 0 := by
        rw [emptyRun_pos env p hp, if_neg hemp]
      cases hold : oldestDate (env p) with
      | some d =>
        by_cases hd : d < s
        · have hds : ttoDateStop env s p = true := by
            simp [ttoDateStop, hold, hd]
          have hstopp : ttoStopB env M s p = true := by
            simp [ttoStopB, hds]
          have hpeq : p = P := by
            by_contra hne
            have h3 := hnostop p (le_refl p) (lt_of_le_of_ne hpP hne)
            rw [h3] at hstopp
            exact Bool.false_ne_true hstopp
          subst hpeq
          rw [ttoRun_succ_datestop env M s e fuel p cnt d acc hMcnt hemp
            hold hd]
          have hAcc : ttoAccFrom env s e p p
              = (env p).filter (ttoInRange s e) := by
            rw [ttoAccFrom_cons env s e p p (le_refl p),
              ttoAccFrom_empty env s e (p + 1) p (by omega)]
            simp
          rw [hAcc]
        · have hds : ttoDateStop env s p = false := by
            simp [ttoDateStop, hold, hd]
          have hsf : ttoStopB env M s p = false := by
            simp [ttoStopB, hds, hrun0]
            omega
          have hplt : p < P := by
            rcases lt_or_eq_of_le hpP with h4 | h4
            · exact h4
            · rw [← h4] at hstop
              rw [hsf] at hstop
              exact absurd hstop (Bool.false_ne_true)
          rw [ttoRun_succ_cont_some env M s e fuel p cnt d acc hMcnt hemp
            hold hd]
          rw [ih (p + 1) 0 (acc ++ (env p).filter (ttoInRange s e)) P
            (by omega) (by simpa using hrun0.symm) hM (by omega) hstop
            (fun q h1 h2 => hnostop q (by omega) h2) (by omega)]
          rw [ttoAccFrom_cons env s e p P (le_of_lt hplt),
            List.append_assoc]
      | none =>
        have hds : ttoDateStop env s p = false := by
          simp [ttoDateStop, hold]
        have hsf : ttoStopB env M s p = false := by
          simp [ttoStopB, hds, hrun0]
          omega
        have hplt : p < P := by
          rcases lt_or_eq_of_le hpP with h4 | h4
          · exact h4
          · rw [← h4] at hstop
            rw [hsf] at hstop
            exact absurd hstop (Bool.false_ne_true)
        rw [ttoRun_succ_cont_none env M s e fuel p cnt acc hMcnt hemp hold]
        rw [ih (p + 1) 0 (acc ++ (env p).filter (ttoInRange s e)) P
          (by omega) (by simpa using hrun0.symm) hM (by omega) hstop
          (fun q h1 h2 => hnostop q (by omega) h2) (by omega)]
        rw [ttoAccFrom_cons env s e p P (le_of_lt hplt),
          List.append_assoc]

/-- Generalized loop characterization, non-stopping case: if no page at
or after p fires a stop condition, the loop never returns (it runs out of
any fuel). -/
theorem ttoRun_nostop (env : Nat → List TtoArticle) (M s e : Nat)
    (hM : 0 < M) :
    ∀ (fuel p cnt : Nat) (acc : List TtoArticle),
      0 < p → cnt = emptyRun env (p - 1) → cnt < M →
      (∀ q, p ≤ q → ttoStopB env M s q = false) →
      ttoRun env M s e fuel p cnt acc = none := by
  intro fuel
  induction fuel with
  | zero =>
    intro p cnt acc _ _ _ _
    simp [ttoRun]
  | succ fuel ih =>
    intro p cnt acc hp hcnt hcntM hnostop
    have hMcnt : ¬ M ≤ cnt := by omega
    by_cases hemp : (env p).isEmpty
    · have harts : env p = [] := List.isEmpty_iff.mp hemp
      have hrun : emptyRun env p = cnt + 1 := by
        rw [emptyRun_pos env p hp, if_pos hemp, ← hcnt]
      have hds : ttoDateStop env s p = false := by
        simp [ttoDateStop, harts, oldestDate]
      have hsf : ttoStopB env M s p = false := hnostop p (le_refl p)
      have hne : cnt + 1 < M := by
        rw [ttoStopB, hds] at hsf
        simp only [Bool.or_false, beq_eq_false_iff_ne, ne_eq] at hsf
        rw [hrun] at hsf
        omega
      rw [ttoRun_succ_empty env M s e fuel p cnt acc hMcnt hemp]
      exact ih (p + 1) (cnt + 1) acc (by omega) (by simpa using hrun.symm)
        hne (fun q hq => hnostop q (by omega))
    · have hrun0 : emptyRun env p = 0 := by
        rw [emptyRun_pos env p hp, if_neg hemp]
      cases hold : oldestDate (env p) with
      | some d =>
        by_cases hd : d < s
        · have hstopp : ttoStopB env M s p = true := by
            simp [ttoStopB, ttoDateStop, hold, hd]
          rw [hnostop p (le_refl p)] at hstopp
          exact absurd hstopp (Bool.false_ne_true)
        · rw [ttoRun_succ_cont_some env M s e fuel p cnt d acc hMcnt hemp
            hold hd]
          exact ih (p + 1) 0 (acc ++ (env p).filter (ttoInRange s e))
            (by omega) (by simpa using hrun0.symm) hM
            (fun q hq => hnostop q (by omega))
      | none =>
        rw [ttoRun_succ_cont_none env M s e fuel p cnt acc hMcnt hemp hold]
        exact ih (p + 1) 0 (acc ++ (env p).filter (ttoInRange s e))
          (by omega) (by simpa using hrun0.symm) hM
          (fun q hq => hnostop q (by omega))

/-- Claim C3: with a positive max-empty-pages setting M, the
content-derived controller stops exactly when either (a) the
consecutive-empty counter (which resets to zero on any non-empty page,
hence equals the length of the maximal empty suffix) reaches M, or (b)
the oldest article date found on the current page precedes the start
date.  If P is the first page where a condition fires, the loop requests
no page beyond P and returns the in-range records of pages 1..P (so in
case (b) the current page's in-range records are kept); if no page ever
fires a condition, the loop never stops. -/
theorem claim3_tto_pagination (env : Nat → List TtoArticle) (M s e : Nat)
    (hM : 0 < M) :
    (∀ P fuel, 0 < P → ttoStopB env M s P = true →
      (∀ q, 0 < q → q < P → ttoStopB env M s q = false) →
      P + 1 ≤ fuel →
      ttoRun env M s e fuel 1 0 []
        = some (ttoAccFrom env s e 1 P, P))
    ∧ (∀ fuel, (∀ q, 0 < q → ttoStopB env M s q = false) →
        ttoRun env M s e fuel 1 0 [] = none) := by
  constructor
  · intro P fuel hP hstop hnostop hfuel
    have h := ttoRun_stop_spec env M s e hM fuel 1 0 [] P (by omega) rfl
      hM hP hstop (fun q h1 h2 => hnostop q h1 h2) (by omega)
    simpa using h
  · intro fuel hnostop
    exact ttoRun_nostop env M s e hM fuel 1 0 [] (by omega) rfl hM
      (fun q hq => hnostop q hq)

/-- Article dated 2025-02-01 for the C3 witness. -/
def ttoArtW1 : TtoArticle :=
  { article_id := "20250201000000001", url := "u1", headline := "h1",
    description := "", date := some 20250201 }

/-- Article dated 2025-01-15 for the C3 witness. -/
def ttoArtW2 : TtoArticle :=
  { article_id := "20250115000000002", url := "u2", headline := "h2",
    description := "", date := some 20250115 }

/-- Article dated 2024-12-20 for the C3 witness. -/
def ttoArtW3 : TtoArticle :=
  { article_id := "20241220000000003", url := "u3", headline := "h3",
    description := "", date := some 20241220 }

/-- Page oracle of the spec scenario: three pages carrying dates
2025-02-01, 2025-01-15, 2024-12-20, then nothing. -/
def ttoEnvW : Nat → List TtoArticle := fun p =>
  if p = 1 then [ttoArtW1]
  else if p = 2 then [ttoArtW2]
  else if p = 3 then [ttoArtW3]
  else []

/-- Witness for claim C3 on the spec scenario: with start date
2025-01-01 the loop stops at page 3, keeps the in-range records of pages
1 and 2, keeps no record of page 3 (its record is out of range), and
requests no fourth page. -/
theorem claim3_witness :
    ttoRun ttoEnvW 3 20250101 20251231 4 1 0 []
      = some ([ttoArtW1, ttoArtW2], 3) := by
  have h := (claim3_tto_pagination ttoEnvW 3 20250101 20251231
    (by decide)).1 3 4 (by decide) (by decide)
    (fun q h1 h2 => by interval_cases q <;> decide) (by decide)
  exact h.trans (by decide)

/-! ## Dantri deduplication (src/dantri/get_news.py lines 176-178) -/

/-- One insertion into a Python dict modelled as an insertion-ordered
association list: an existing key keeps its position and gets the new
value, a new key is appended. -/
def upsert (m : List (String × DArticle)) (k : String) (v : DArticle) :
    List (String × DArticle) :=
  if m.any (fun q => q.1 == k) then
    m.map (fun p => if p.1 == k then (k, v) else p)
  else m ++ [(k, v)]

/-- The dict comprehension keyed on article_id followed by .values():
list(\x7barticle['article_id']: article for article in all_articles\x7d.values()). -/
def dedupById (l : List DArticle) : List DArticle :=
  (l.foldl (fun m a => upsert m a.article_id a) []).map (fun p => p.2)

/-- A key absent from every pair filters to nothing. -/
theorem filter_key_nil (m : List (String × DArticle)) (k : String)
    (h : ∀ p ∈ m, p.1 ≠ k) :
    m.filter (fun p => p.1 == k) = [] := by
  induction m with
  | nil => rfl
  | cons p m ih =>
    have hp := h p (List.mem_cons_self p m)
    have hb : (p.1 == k) = false := by simp [hp]
    simp only [List.filter_cons, hb, Bool.false_eq_true, if_false]
    exact ih (fun q hq => h q (List.mem_cons_of_mem _ hq))

/-- Replacing the value at key k does not disturb the entries of another
key. -/
theorem map_filter_other (m : List (String × DArticle)) (k : String)
    (v : DArticle) (i : String) (hik : i ≠ k) :
    (m.map (fun p => if p.1 == k then (k, v) else p)).filter
        (fun p => p.1 == i)
      = m.filter (fun p => p.1 == i) := by
  induction m with
  | nil => rfl
  | cons p m ih =>
    simp only [List.map_cons, List.filter_cons]
    by_cases hpk : p.1 = k
    · have h1 : (if (p.1 == k) = true then (k, v) else p) = (k, v) := by
        simp [hpk]
      rw [h1]
      have h2 : ((k, v).1 == i) = false := by
        simp [Ne.symm hik]
      have h3 : (p.1 == i) = false := by
        simp [hpk, Ne.symm hik]
      simp only [h2, h3, Bool.false_eq_true, if_false]
      exact ih
    · have h1 : (if (p.1 == k) = true then (k, v) else p) = p := by
        simp [hpk]
      rw [h1]
      by_cases hpi : p.1 = i
      · simp only [hpi, beq_self_eq_true, if_pos, ih]
      · have h3 : (p.1 == i) = false := by simp [hpi]
        simp only [h3, Bool.false_eq_true, if_false, ih]

/-- With pairwise-distinct keys and key k present, replacing the value
at k leaves exactly the single pair (k, v) at key k. -/
theorem map_filter_key (k : String) (v : DArticle) :
    ∀ m : List (String × DArticle), (m.map Prod.fst).Nodup →
      m.any (fun q => q.1 == k) = true →
      (m.map (fun p => if p.1 == k then (k, v) else p)).filter
          (fun p => p.1 == k)
        = [(k, v)] := by
  intro m
  induction m with
  | nil => intro _ ha; simp at ha
  | cons p m ih =>
    intro h2 ha
    simp only [List.map_cons, List.filter_cons]
    by_cases hpk : p.1 = k
    · have h1 : (if (p.1 == k) = true then (k, v) else p) = (k, v) := by
        simp [hpk]
      rw [h1]
      simp only [beq_self_eq_true, if_pos]
      have hnotin : ∀ q ∈ m, q.1 ≠ k := by
        intro q hq hqk
        have hpm : p.1 ∉ m.map Prod.fst := by
          simp only [List.map_cons, List.nodup_cons] at h2
          exact h2.1
        exact hpm (by
          rw [hpk, ← hqk]
          exact List.mem_map_of_mem Prod.fst hq)
      have hmap : m.map (fun p => if p.1 == k then (k, v) else p) = m := by
        apply List.map_congr_left ?_ |>.trans (List.map_id m)
        intro q hq
        simp [hnotin q hq]
      rw [hmap, filter_key_nil m k hnotin]
    · have h1 : (if (p.1 == k) = true then (k, v) else p) = p := by
        simp [hpk]
      rw [h1]
      have h3 : (p.1 == k) = false := by simp [hpk]
      simp only [h3, Bool.false_eq_true, if_false]
      have ha2 : m.any (fun q => q.1 == k) = true := by
        simp only [List.any_cons, h3, Bool.false_or] at ha
        exact ha
      have h22 : (m.map Prod.fst).Nodup := by
        simp only [List.map_cons, List.nodup_cons] at h2
        exact h2.2
      exact ih h22 ha2

/-- upsert at key k leaves exactly (k, v) at key k, when keys are
pairwise distinct. -/
theorem upsert_filter_eq (m : List (String × DArticle)) (k : String)
    (v : DArticle) (h2 : (m.map Prod.fst).Nodup) :
    (upsert m k v).filter (fun p => p.1 == k) = [(k, v)] := by
  unfold upsert
  by_cases ha : m.any (fun q => q.1 == k) = true
  · rw [if_pos ha]
    exact map_filter_key k v m h2 ha
  · rw [if_neg ha]
    rw [List.filter_append]
    have hnotin : ∀ q ∈ m, q.1 ≠ k := by
      intro q hq hqk
      exact ha (List.any_eq_true.mpr ⟨q, hq, by simp [hqk]⟩)
    rw [filter_key_nil m k hnotin]
    simp

/-- upsert at key k does not disturb the entries of another key. -/
theorem upsert_filter_ne (m : List (String × DArticle)) (k : String)
    (v : DArticle) (i : String) (hik : i ≠ k) :
    (upsert m k v).filter (fun p => p.1 == i)
      = m.filter (fun p => p.1 == i) := by
  unfold upsert
  by_cases ha : m.any (fun q => q.1 == k) = true
  · rw [if_pos ha]
    exact map_filter_other m k v i hik
  · rw [if_neg ha, List.filter_append]
    have hkv : (((k, v) : String × DArticle).1 == i) = false := by
      simp [Ne.symm hik]
    simp [hkv]

/-- upsert preserves the association between keys and the article_id
stored in the value. -/
theorem upsert_pair_prop (m : List (String × DArticle)) (k : String)
    (v : DArticle) (h1 : ∀ p ∈ m, p.2.article_id = p.1)
    (hv : v.article_id = k) :
    ∀ p ∈ upsert m k v, p.2.article_id = p.1 := by
  intro p hp
  unfold upsert at hp
  by_cases ha : m.any (fun q => q.1 == k) = true
  · rw [if_pos ha] at hp
    rcases List.mem_map.mp hp with ⟨q, hq, rfl⟩
    by_cases hqk : q.1 = k
    · simp [hqk, hv]
    · have h3 : (q.1 == k) = false := by simp [hqk]
      simp only [h3, Bool.false_eq_true, if_false]
      exact h1 q hq
  · rw [if_neg ha] at hp
    rcases List.mem_append.mp hp with h | h
    · exact h1 p h
    · rw [List.mem_singleton.mp h]
      exact hv

/-- upsert preserves key distinctness. -/
theorem upsert_keys_nodup (m : List (String × DArticle)) (k : String)
    (v : DArticle) (h2 : (m.map Prod.fst).Nodup) :
    ((upsert m k v).map Prod.fst).Nodup := by
  unfold upsert
  by_cases ha : m.any (fun q => q.1 == k) = true
  · rw [if_pos ha, List.map_map]
    have hmap : (m.map (Prod.fst ∘ fun p => if p.1 == k then (k, v) else p))
        = m.map Prod.fst := by
      apply List.map_congr_left
      intro p _
      by_cases hpk : p.1 = k
      · simp [Function.comp, hpk]
      · simp [Function.comp, hpk]
    rw [hmap]
    exact h2
  · rw [if_neg ha, List.map_append]
    have hnotin : k ∉ m.map Prod.fst := by
      intro hk
      rcases List.mem_map.mp hk with ⟨q, hq, hqk⟩
      exact ha (List.any_eq_true.mpr ⟨q, hq, by simp [hqk]⟩)
    simp only [List.map_cons, List.map_nil]
    rw [List.nodup_append]
    exact ⟨h2, List.nodup_singleton k, by simpa using hnotin⟩

/-- The fold of upserts preserves the key-value association. -/
theorem fold_pair_prop :
    ∀ (l : List DArticle) (m : List (String × DArticle)),
      (∀ p ∈ m, p.2.article_id = p.1) →
      ∀ p ∈ l.foldl (fun m a => upsert m a.article_id a) m,
        p.2.article_id = p.1 := by
  intro l
  induction l with
  | nil => intro m h1; simpa using h1
  | cons a l ih =>
    intro m h1
    simp only [List.foldl_cons]
    exact ih (upsert m a.article_id a)
      (upsert_pair_prop m a.article_id a h1 rfl)

/-- The fold of upserts preserves key distinctness. -/
theorem fold_keys_nodup :
    ∀ (l : List DArticle) (m : List (String × DArticle)),
      (m.map Prod.fst).Nodup →
      ((l.foldl (fun m a => upsert m a.article_id a) m).map Prod.fst).Nodup := by
  intro l
  induction l with
  | nil => intro m h2; simpa using h2
  | cons a l ih =>
    intro m h2
    simp only [List.foldl_cons]
    exact ih (upsert m a.article_id a)
      (upsert_keys_nodup m a.article_id a h2)

/-- The fold of upserts keeps, at key i, exactly the pair holding the
last input record whose article_id is i (or the initial entries of key i
when no input record has id i). -/
theorem fold_filter_last (i : String) :
    ∀ (l : List DArticle) (m : List (String × DArticle)),
      (m.map Prod.fst).Nodup →
      (l.foldl (fun m a => upsert m a.article_id a) m).filter
          (fun p => p.1 == i)
        = (match (l.filter (fun a => a.article_id == i)).getLast? with
          | some b => [(i, b)]
          | none => m.filter (fun p => p.1 == i)) := by
  intro l
  induction l with
  | nil => intro m _; simp
  | cons a l ih =>
    intro m h2
    simp only [List.foldl_cons]
    have hih := ih (upsert m a.article_id a)
      (upsert_keys_nodup m a.article_id a h2)
    by_cases hai : a.article_id = i
    · have hb : (a.article_id == i) = true := by simp [hai]
      have hfc : (a :: l).filter (fun x => x.article_id == i)
          = a :: l.filter (fun x => x.article_id == i) := by
        simp [List.filter_cons, hb]
      rw [hfc]
      cases hlast : (l.filter (fun x => x.article_id == i)).getLast? with
      | some b =>
        have hne : l.filter (fun x => x.article_id == i) ≠ [] := by
          intro hnil
          rw [hnil] at hlast
          simp at hlast
        have hcons : (a :: l.filter (fun x => x.article_id == i)).getLast?
            = (l.filter (fun x => x.article_id == i)).getLast? := by
          cases hfl : l.filter (fun x => x.article_id == i) with
          | nil => exact absurd hfl hne
          | cons c cs => rw [List.getLast?_cons_cons]
        rw [hcons, hlast]
        rw [hih, hlast]
      | none =>
        have hfl : l.filter (fun x => x.article_id == i) = [] :=
          List.getLast?_eq_none_iff.mp hlast
        rw [hfl]
        rw [hih, hlast]
        have hkey : upsert m a.article_id a = upsert m i a := by rw [hai]
        rw [hkey]
        rw [upsert_filter_eq m i a h2]
        simp
    · have hb : (a.article_id == i) = false := by simp [hai]
      have hfc : (a :: l).filter (fun x => x.article_id == i)
          = l.filter (fun x => x.article_id == i) := by
        simp [List.filter_cons, hb]
      rw [hfc, hih]
      cases hlast : (l.filter (fun x => x.article_id == i)).getLast? with
      | some b => rfl
      | none =>
        exact upsert_filter_ne m a.article_id a i (fun h => hai h.symm)

/-- Claim C5: for every accumulated article list, the dict-comprehension
deduplication keyed on article_id yields, for every id i, exactly the
last record of the input carrying that id (and nothing when no input
record carries it): one record per distinct id, last write wins. -/
theorem claim5_dedup_last_write_wins (l : List DArticle) (i : String) :
    (dedupById l).filter (fun a => a.article_id == i)
      = ((l.filter (fun a => a.article_id == i)).getLast?).toList := by
  unfold dedupById
  have h1 := fold_pair_prop l [] (by simp)
  have h3 := fold_filter_last i l [] (by simp)
  have h4 : ((l.foldl (fun m a => upsert m a.article_id a) []).map
        (fun p => p.2)).filter (fun a => a.article_id == i)
      = ((l.foldl (fun m a => upsert m a.article_id a) []).filter
          (fun p => p.1 == i)).map (fun p => p.2) := by
    rw [List.filter_map]
    congr 1
    apply List.filter_congr
    intro p hp
    simp only [Function.comp_apply]
    rw [h1 p hp]
  rw [h4, h3]
  cases hlast : (l.filter (fun a => a.article_id == i)).getLast? with
  | some b => simp
  | none => simp

/-! ## Tabular writers (src/dantri/get_news.py lines 112-130,
src/tto/get_news.py lines 145-166) -/

/-- Fixed column order of the dantri article writer. -/
def dantri_fieldnames : List String :=
  ["article_id", "url", "title", "description"]

/-- One dantri article projected to the writer's column order. -/
def dantriArticleRow (a : DArticle) : List String :=
  [a.article_id, a.url, a.title, a.description]

/-- save_to_csv of dantri get_news.py.  The Except layer records whether
the function raises: the body contains no raise, so every path is ok.
`ok none` is the early return of the zero-row branch (a console message,
nothing written); `ok (some (header, rows))` is a written file. -/
def dantri_save_to_csv (articles : List DArticle) :
    Except String (Option (List String × List (List String))) :=
  if articles.isEmpty then .ok none
  else .ok (some (dantri_fieldnames, articles.map dantriArticleRow))

/-- Fixed column order of the tto article writer; the internal date
field is dropped from each row (get_news.py lines 158-164). -/
def tto_fieldnames : List String :=
  ["article_id", "url", "headline", "description"]

/-- One tto article projected to the writer's column order, dropping the
internal date field. -/
def ttoArticleRow (a : TtoArticle) : List String :=
  [a.article_id, a.url, a.headline, a.description]

/-- save_to_csv of tto get_news.py, modelled like the dantri writer. -/
def tto_save_to_csv (articles : List TtoArticle) :
    Except String (Option (List String × List (List String))) :=
  if articles.isEmpty then .ok none
  else .ok (some (tto_fieldnames, articles.map ttoArticleRow))

/-- Claim C6 as stated is false: with zero rows available neither writer
fails loudly; both return normally without raising (printing a skip
message), and the surrounding mains still exit 0. -/
theorem claim6_counterexample :
    dantri_save_to_csv [] = .ok none
    ∧ tto_save_to_csv [] = .ok none := by
  exact ⟨rfl, rfl⟩

/-- Claim C6 (amended): the writers never fail: on zero rows they skip
writing and return normally, and whenever at least one row was
accumulated they write the header and every accumulated row. -/
theorem claim6_writer_total (l : List DArticle) (l2 : List TtoArticle) :
    (∃ x, dantri_save_to_csv l = .ok x)
    ∧ (l ≠ [] →
        dantri_save_to_csv l
          = .ok (some (dantri_fieldnames, l.map dantriArticleRow))
        ∧ (l.map dantriArticleRow).length = l.length)
    ∧ (∃ y, tto_save_to_csv l2 = .ok y)
    ∧ (l2 ≠ [] →
        tto_save_to_csv l2
          = .ok (some (tto_fieldnames, l2.map ttoArticleRow))
        ∧ (l2.map ttoArticleRow).length = l2.length) := by
  refine ⟨?_, ?_, ?_, ?_⟩
  · by_cases h : l.isEmpty <;> simp [dantri_save_to_csv, h]
  · intro h
    have h2 : l.isEmpty = false := by
      cases l with
      | nil => exact absurd rfl h
      | cons a l => rfl
    constructor
    · simp [dantri_save_to_csv, h2]
    · simp
  · by_cases h : l2.isEmpty <;> simp [tto_save_to_csv, h]
  · intro h
    have h2 : l2.isEmpty = false := by
      cases l2 with
      | nil => exact absurd rfl h
      | cons a l2 => rfl
    constructor
    · simp [tto_save_to_csv, h2]
    · simp

/-- Witness for claim C6 at one-element row lists. -/
theorem claim6_witness :
    dantri_save_to_csv [dA1]
      = .ok (some (dantri_fieldnames, [dA1].map dantriArticleRow))
    ∧ tto_save_to_csv [ttoArtW1]
      = .ok (some (tto_fieldnames, [ttoArtW1].map ttoArticleRow)) := by
  have h := claim6_writer_total [dA1] [ttoArtW1]
  exact ⟨(h.2.1 (by simp)).1, (h.2.2.2 (by simp)).1⟩

/-! ## Process exit codes (dantri get_comments.py main, tto get_news.py
main, vnexpress get_all_comments.py main) -/

/-- An input CSV as seen by pandas read_csv: only its column list
matters here. -/
structure CsvTable where
  columns : List String
deriving DecidableEq

/-- Exit code of dantri get_comments.py main (lines 110-171, run via
sys.exit(main())).  `input` is the outcome of pd.read_csv: an exception
(missing or unreadable input file) is caught by the surrounding
try/except and returns 1; a table without the article_id column returns
1; otherwise the crawl proceeds (per-article errors are swallowed inside
the fetch helpers) and main returns 0, also with zero comments found. -/
def dantri_getcomments_exit (input : Except String CsvTable) : Nat :=
  match input with
  | .error _ => 1
  | .ok t => if t.columns.contains "article_id" then 0 else 1

/-- Exit code of tto get_news.py main (lines 168-256, run via
sys.exit(main())).  The arguments are the outcomes of
datetime.strptime on the start and end date strings (none models a
ValueError): an unparseable date returns 1, a start date after the end
date returns 1, otherwise the crawl runs and main returns 0, also with
zero articles found. -/
def tto_getnews_exit (startDate endDate : Option Nat) : Nat :=
  match startDate, endDate with
  | some s, some e => if e < s then 1 else 0
  | _, _ => 1

/-- Return value of vnexpress get_all_comments.py main (lines 246-291):
every path, the missing-input-file branch (lines 255-257) and the
empty-article branch included, falls off or returns bare, that is
returns None. -/
def vnexpress_main_ret (fileExists : Bool) (articles : List String) :
    Option Nat :=
  if fileExists = false then none
  else if articles.isEmpty then none
  else none

/-- Process exit status of the vnexpress script: the module entry (line
294) calls main() bare, without sys.exit, so the interpreter discards
the return value and exits 0 whatever main did. -/
def vnexpress_script_exit (fileExists : Bool) (articles : List String) :
    Nat :=
  match vnexpress_main_ret fileExists articles with
  | _ => 0

/-- Claim C7 as stated is false: the vnexpress comment script exits 0 on
a missing input file, where the claim demands 1; and tto get_news exits
1 when the (parseable) start date is after the end date, a case outside
the claim's exhaustive list of exit-1 causes. -/
theorem claim7_counterexample :
    vnexpress_script_exit false [] = 0
    ∧ tto_getnews_exit (some 20250501) (some 20250101) = 1 := by
  exact ⟨rfl, rfl⟩

/-- Claim C7 (amended): dantri get_comments exits 0 exactly on a
readable input carrying the article_id column (zero results included)
and 1 on a read error or missing column; tto get_news exits 0 exactly
when both dates parse and the start date is not after the end date, and
1 otherwise (unparseable date or inverted range); the vnexpress comment
script always exits 0, a missing input file included, since its main is
invoked without sys.exit. -/
theorem claim7_exit_codes :
    (∀ r : Except String CsvTable,
      (dantri_getcomments_exit r = 0
        ↔ ∃ t, r = .ok t ∧ "article_id" ∈ t.columns)
      ∧ (dantri_getcomments_exit r = 0 ∨ dantri_getcomments_exit r = 1))
    ∧ (∀ sd ed : Option Nat,
      (tto_getnews_exit sd ed = 0
        ↔ ∃ s e, sd = some s ∧ ed = some e ∧ s ≤ e)
      ∧ (tto_getnews_exit sd ed = 0 ∨ tto_getnews_exit sd ed = 1))
    ∧ (∀ (fe : Bool) (arts : List String),
        vnexpress_script_exit fe arts = 0) := by
  refine ⟨?_, ?_, ?_⟩
  · intro r
    constructor
    · constructor
      · intro h0
        cases r with
        | error msg => simp [dantri_getcomments_exit] at h0
        | ok t =>
          refine ⟨t, rfl, ?_⟩
          by_contra hc
          simp [dantri_getcomments_exit, hc] at h0
      · rintro ⟨t, rfl, ht⟩
        simp [dantri_getcomments_exit, ht]
    · cases r with
      | error msg => right; rfl
      | ok t =>
        by_cases h : "article_id" ∈ t.columns
        · left; simp [dantri_getcomments_exit, h]
        · right; simp [dantri_getcomments_exit, h]
  · intro sd ed
    constructor
    · constructor
      · intro h0
        cases sd with
        | none => simp [tto_getnews_exit] at h0
        | some s =>
          cases ed with
          | none => simp [tto_getnews_exit] at h0
          | some e =>
            refine ⟨s, e, rfl, rfl, ?_⟩
            by_contra hc
            simp [tto_getnews_exit, Nat.lt_of_not_le hc] at h0
      · rintro ⟨s, e, rfl, rfl, hse⟩
        simp [tto_getnews_exit, Nat.not_lt_of_le hse]
    · cases sd with
      | none => right; rfl
      | some s =>
        cases ed with
        | none => right; rfl
        | some e =>
          by_cases h : e < s
          · right; simp [tto_getnews_exit, h]
          · left; simp [tto_getnews_exit, h]
  · intro fe arts
    rfl

/-! ## Per-unit error handling (src/dantri/get_comments.py lines 8-28,
src/dantri/get_news.py lines 53-110) -/

/-- The dantri listcomment payload: the items key is optional
(data.get('items', [])). -/
structure DantriCommentPayload where
  items : Option (List DComment)

/-- get_article_comments (get_comments.py lines 8-28): the whole fetch
and decode sits in one try/except; any error yields [] after a console
message, a payload without items also yields []. -/
def get_article_comments (resp : Except String DantriCommentPayload) :
    List DComment :=
  match resp with
  | .error _ => []
  | .ok d => d.items.getD []

/-- One article element of a dantri search results page, as far as
extraction looks at it: the optional title link (element text and its
optional href attribute) and the optional excerpt element.  A missing
href makes the subscript raise, caught by the per-item except. -/
structure RawArticleItem where
  titleText : Option String
  href : Option String
  excerpt : Option String
deriving DecidableEq

/-- extract_article_id (get_news.py lines 46-51): the regular
expression -(digits).htm anchored at the end of the URL, written over
the character list: the URL must end in ".htm", preceded by a nonempty
maximal digit run, preceded by a hyphen. -/
def extract_article_id (url : String) : Option String :=
  match url.data.reverse with
  | 'm' :: 't' :: 'h' :: '.' :: rest =>
    let digits := rest.takeWhile Char.isDigit
    if digits.isEmpty then none
    else
      match rest.drop digits.length with
      | '-' :: _ => some (String.mk digits.reverse)
      | _ => none
  | _ => none

/-- Extraction of one article element (get_news.py lines 73-108):
missing title element, missing href (a raised KeyError, caught), missing
article id, or a failed keyword-relevance test each skip the element.
`queryMatch title description` stands for the lowercase containment test
of every query term (line 99). -/
def extractOne (queryMatch : String → String → Bool)
    (item : RawArticleItem) : Option DArticle :=
  match item.titleText with
  | none => none
  | some title =>
    match item.href with
    | none => none
    | some href =>
      let url := if href.data.take 4 = ['h', 't', 't', 'p'] then href
        else "https://dantri.com.vn" ++ href
      match extract_article_id url with
      | none => none
      | some aid =>
        let description := item.excerpt.getD ""
        if queryMatch title description then
          some { article_id := aid, url := url, title := title,
                 description := description }
        else none

/-- extract_articles (get_news.py lines 53-110): an absent payload gives
[], otherwise each element is processed under a per-element
continue-on-error policy. -/
def extract_articles (queryMatch : String → String → Bool)
    (html : Option (List RawArticleItem)) : List DArticle :=
  match html with
  | none => []
  | some items => items.foldl (skipStep (extractOne queryMatch)) []

/-- Claim C8: a fetch error at the comment-fetch unit degrades to the
empty list; an absent page payload degrades to no records; and a parse
failure of one article element only drops that element: the extracted
list is exactly the per-element successes, in order, whatever the other
elements do. -/
theorem claim8_error_containment :
    (∀ msg : String, get_article_comments (.error msg) = [])
    ∧ (∀ p : DantriCommentPayload,
        p.items = none → get_article_comments (.ok p) = [])
    ∧ (∀ queryMatch : String → String → Bool,
        extract_articles queryMatch none = [])
    ∧ (∀ (queryMatch : String → String → Bool)
        (items : List RawArticleItem),
        extract_articles queryMatch (some items)
          = items.filterMap (extractOne queryMatch)) := by
  refine ⟨fun _ => rfl, ?_, fun _ => rfl, ?_⟩
  · intro p hp
    simp [get_article_comments, hp]
  · intro queryMatch items
    exact foldl_skip_eq_filterMap (extractOne queryMatch) items []

/-- Witness for claim C8: a payload of two elements where the second
lacks its href extracts exactly the first. -/
theorem claim8_witness :
    get_article_comments (.ok { items := none }) = []
    ∧ extract_articles (fun _ _ => true)
        (some [⟨some "t1", some "/a-123.htm", none⟩,
               ⟨some "t2", none, none⟩])
      = [{ article_id := "123", url := "https://dantri.com.vn/a-123.htm",
           title := "t1", description := "" }] := by
  have h0 := claim8_error_containment.2.1 { items := none } rfl
  have h := claim8_error_containment.2.2.2 (fun _ _ => true)
    [⟨some "t1", some "/a-123.htm", none⟩, ⟨some "t2", none, none⟩]
  exact ⟨h0, h.trans (by decide)⟩

/-! ## Column removal utility (src/vnexpress/clean_old_csv.py) -/

/-- A delimited file: header and positional rows (DictReader keys are
the header fields, in order). -/
structure CsvFile where
  header : List String
  rows : List (List String)
deriving DecidableEq

/-- clean_csv (clean_old_csv.py lines 7-60).  `none` input is a missing
input file (returns False); an empty fieldnames list also returns False
(lines 30-33); otherwise the kept fields are the header fields not
listed for removal and every row is projected to them (lines 36-43). -/
def clean_csv (file : Option CsvFile) (cols : List String) :
    Option CsvFile :=
  match file with
  | none => none
  | some f =>
    if f.header.isEmpty then none
    else
      some { header := f.header.filter (fun h => !(cols.contains h))
             rows := f.rows.map (fun r =>
               ((f.header.zip r).filter (fun p => !(cols.contains p.1))).map
                 (fun p => p.2)) }

/-- Projecting a row to fields that all pass the predicate returns the
row unchanged. -/
theorem zip_filter_all (pred : String → Bool) :
    ∀ (hs r : List String), r.length = hs.length →
      (∀ h ∈ hs, pred h = true) →
      ((hs.zip r).filter (fun p => pred p.1)).map (fun p => p.2) = r := by
  intro hs
  induction hs with
  | nil =>
    intro r hlen _
    cases r with
    | nil => rfl
    | cons v r => simp at hlen
  | cons hd hs ih =>
    intro r hlen hall
    cases r with
    | nil => simp at hlen
    | cons v r =>
      have hp := hall hd (List.mem_cons_self hd hs)
      simp only [List.zip_cons_cons, List.filter_cons, hp, if_pos,
        List.map_cons]
      rw [ih r (by simpa using hlen)
        (fun h hh => hall h (List.mem_cons_of_mem _ hh))]

/-- The projected row has one value per kept field. -/
theorem zip_filter_len (pred : String → Bool) :
    ∀ (hs r : List String), r.length = hs.length →
      (((hs.zip r).filter (fun p => pred p.1)).map (fun p => p.2)).length
        = (hs.filter pred).length := by
  intro hs
  induction hs with
  | nil =>
    intro r hlen
    cases r with
    | nil => rfl
    | cons v r => simp at hlen
  | cons hd hs ih =>
    intro r hlen
    cases r with
    | nil => simp at hlen
    | cons v r =>
      simp only [List.zip_cons_cons, List.filter_cons]
      cases hp : pred hd with
      | true => simp [hp, ih r (by simpa using hlen)]
      | false => simp [hp, ih r (by simpa using hlen)]

/-- Claim C9 (amended): on a file with at least one column and
well-formed rows, removing already-absent columns succeeds and returns
the file unchanged; a second application with the same column list is
the identity on the first output whenever at least one column survives;
when the column list covers every column the first application succeeds
with an empty column set but the second application fails, because the
intermediate file has no determinable columns. -/
theorem claim9_clean_csv (f : CsvFile) (cols : List String)
    (hhdr : f.header ≠ [])
    (hwf : ∀ r ∈ f.rows, r.length = f.header.length) :
    ((∀ c ∈ cols, c ∉ f.header) → clean_csv (some f) cols = some f)
    ∧ (f.header.filter (fun h => !(cols.contains h)) ≠ [] →
        clean_csv (clean_csv (some f) cols) cols
          = clean_csv (some f) cols)
    ∧ (f.header.filter (fun h => !(cols.contains h)) = [] →
        (clean_csv (some f) cols).isSome = true
        ∧ clean_csv (clean_csv (some f) cols) cols = none) := by
  have hne : f.header.isEmpty = false := by
    cases hh : f.header with
    | nil => exact absurd hh hhdr
    | cons a l => rfl
  have hstep : clean_csv (some f) cols
      = some { header := f.header.filter (fun h => !(cols.contains h))
               rows := f.rows.map (fun r =>
                 ((f.header.zip r).filter
                   (fun p => !(cols.contains p.1))).map (fun p => p.2)) } := by
    simp [clean_csv, hne]
  refine ⟨?_, ?_, ?_⟩
  · intro hc
    rw [hstep]
    have hall : ∀ h ∈ f.header, (!(cols.contains h)) = true := by
      intro h hh
      have : h ∉ cols := by
        intro hin
        exact hc h hin hh
      simpa using this
    have hhd : f.header.filter (fun h => !(cols.contains h)) = f.header :=
      List.filter_eq_self.mpr hall
    have hrows : f.rows.map (fun r =>
        ((f.header.zip r).filter (fun p => !(cols.contains p.1))).map
          (fun p => p.2)) = f.rows := by
      have hcongr : ∀ r ∈ f.rows,
          ((f.header.zip r).filter (fun p => !(cols.contains p.1))).map
            (fun p => p.2) = r := by
        intro r hr
        exact zip_filter_all (fun h => !(cols.contains h)) f.header r
          (hwf r hr) hall
      exact (List.map_congr_left hcongr).trans (List.map_id f.rows)
    rw [hhd, hrows]
  · intro hsurv
    rw [hstep]
    have hne2 : (f.header.filter (fun h => !(cols.contains h))).isEmpty
        = false := by
      cases hh : f.header.filter (fun h => !(cols.contains h)) with
      | nil => exact absurd hh hsurv
      | cons a l => rfl
    have hall2 : ∀ h ∈ f.header.filter (fun h => !(cols.contains h)),
        (!(cols.contains h)) = true := by
      intro h hh
      exact (List.mem_filter.mp hh).2
    have hhd2 : (f.header.filter (fun h => !(cols.contains h))).filter
        (fun h => !(cols.contains h))
        = f.header.filter (fun h => !(cols.contains h)) :=
      List.filter_eq_self.mpr hall2
    simp only [clean_csv, hne2, Bool.false_eq_true, if_false]
    refine congrArg some ?_
    have hrows3 : (f.rows.map (fun r =>
          ((f.header.zip r).filter (fun p => !(cols.contains p.1))).map
            (fun p => p.2))).map (fun r =>
          (((f.header.filter (fun h => !(cols.contains h))).zip r).filter
            (fun p => !(cols.contains p.1))).map (fun p => p.2))
        = f.rows.map (fun r =>
          ((f.header.zip r).filter (fun p => !(cols.contains p.1))).map
            (fun p => p.2)) := by
      rw [List.map_map]
      apply List.map_congr_left
      intro r hr
      simp only [Function.comp_apply]
      have hrlen : (((f.header.zip r).filter
          (fun p => !(cols.contains p.1))).map (fun p => p.2)).length
          = (f.header.filter (fun h => !(cols.contains h))).length :=
        zip_filter_len (fun h => !(cols.contains h)) f.header r (hwf r hr)
      exact zip_filter_all (fun h => !(cols.contains h))
        (f.header.filter (fun h => !(cols.contains h)))
        (((f.header.zip r).filter (fun p => !(cols.contains p.1))).map
          (fun p => p.2)) hrlen hall2
    rw [hhd2, hrows3]
  · intro hdead
    rw [hstep]
    constructor
    · rfl
    · simp only [clean_csv, hdead]
      rfl

/-- The one-column file of the C9 counterexample. -/
def csvF0 : CsvFile := { header := ["user_name"], rows := [["x"]] }

/-- Claim C9 as stated is false: removing the only column succeeds and
yields a file with an empty column set, but applying clean_csv a second
time with the same column list fails (returns False) on that
intermediate file instead of yielding the same column set. -/
theorem claim9_counterexample :
    clean_csv (some csvF0) ["user_name"]
        = some { header := [], rows := [[]] }
    ∧ clean_csv (clean_csv (some csvF0) ["user_name"]) ["user_name"]
        = none := by
  exact ⟨rfl, rfl⟩

/-- The two-column file of the C9 witness. -/
def csvW : CsvFile :=
  { header := ["article_id", "user_name"], rows := [["1", "x"]] }

/-- Witness for claim C9: removing an absent column is the identity, and
removing user_name twice equals removing it once. -/
theorem claim9_witness :
    clean_csv (some csvW) ["absent"] = some csvW
    ∧ clean_csv (clean_csv (some csvW) ["user_name"]) ["user_name"]
        = clean_csv (some csvW) ["user_name"] := by
  have h1 := (claim9_clean_csv csvW ["absent"] (by decide)
    (by decide)).1 (by decide)
  have h2 := (claim9_clean_csv csvW ["user_name"] (by decide)
    (by decide)).2.1 (by decide)
  exact ⟨h1, h2⟩

/-- Claim C10: the reply request URL fixes limit=12 and offset=0, so a
reply fetch returns at most 12 items, every comment block of the
flattener carries at most 12 reply rows, and a comment whose declared
reply total exceeds 12 (with enough replies upstream) gets exactly 12
reply rows emitted, strictly fewer than its declared total: the
flattened output undercounts its replies. -/
theorem claim10_reply_cap :
    (∀ (renv : String → List VComment) (aid pid : String),
      (fetch_comment_replies renv aid pid).length ≤ 12)
    ∧ (∀ (clean : String → String) (renv : String → List VComment)
        (aid : String) (c : VComment),
        (vReplyRows clean renv aid c).length ≤ 12)
    ∧ (∀ (clean : String → String) (renv : String → List VComment)
        (aid : String) (c : VComment) (t : Nat),
        c.replysTotal = some t → 12 < t → c.comment_id ≠ "" →
        t ≤ (renv c.comment_id).length →
        (vReplyRows clean renv aid c).length = 12
        ∧ (vReplyRows clean renv aid c).length < t) := by
  have hfetch : ∀ (renv : String → List VComment) (aid pid : String),
      (fetch_comment_replies renv aid pid).length ≤ 12 := by
    intro renv aid pid
    simp only [fetch_comment_replies, replyLimit, replyOffset,
      List.drop_zero, List.length_take]
    exact Nat.min_le_left 12 (renv pid).length
  refine ⟨hfetch, ?_, ?_⟩
  · intro clean renv aid c
    unfold vReplyRows
    by_cases hg : vGuard c
    · rw [if_pos hg, List.length_map]
      exact hfetch renv aid c.comment_id
    · rw [if_neg hg]
      simp
  · intro clean renv aid c t ht h12 hid hlen
    have hg : vGuard c = true := by
      simp only [vGuard, ht, Bool.and_eq_true, decide_eq_true_eq]
      constructor
      · omega
      · simpa using hid
    have hlen2 : (vReplyRows clean renv aid c).length = 12 := by
      unfold vReplyRows
      rw [if_pos hg, List.length_map]
      simp only [fetch_comment_replies, replyLimit, replyOffset,
        List.drop_zero, List.length_take]
      omega
    exact ⟨hlen2, by omega⟩

/-- Comment declaring 13 replies, for the C10 witness. -/
def vcT : VComment :=
  { comment_id := "c1", parent_id := none, content := "",
    replysTotal := some 13, userlike := 0, is_reply := false }

/-- Reply oracle holding 13 replies for comment c1. -/
def vEnvT : String → List VComment := fun s =>
  if s = "c1" then List.replicate 13 vrW else []

/-- Witness for claim C10: a comment with 13 declared and available
replies gets exactly 12 reply rows, fewer than declared. -/
theorem claim10_witness :
    (vReplyRows (fun s => s) vEnvT "a" vcT).length = 12
    ∧ (vReplyRows (fun s => s) vEnvT "a" vcT).length < 13 :=
  claim10_reply_cap.2.2 (fun s => s) vEnvT "a" vcT 13 rfl (by decide)
    (by decide) (by decide)
